import Mathlib

/-!
# csv-json-cli: a shallow embedding of `main.go`

The Go functions `processLine`, `processCsvFile`, `getFileData` and
`checkIfValidFile` are translated to Lean functions.  Everything the program
obtains from its environment (the command line, the result of `os.Stat`, the
result of `os.Open`, the lines of the opened file) is an explicit argument;
the `csv.Reader` built at line 72 checks the number of fields of every record
against the number of fields of the first one.  Process termination through `os.Exit` is an explicit
outcome, and the operations performed on the output channel are recorded as a
trace.
-/

namespace CsvJson

/-! ## Go values -/

/-- The error values the program creates or receives.  The first five are the
errors built in `main.go` (lines 22, 37, 49, 54 and 116); `eof` is `io.EOF`;
`fieldCount` is `csv.ErrFieldCount`, the error of a `csv.Reader` for a record
with an unexpected number of fields; `other` stands for any other error handed
over by the standard library. -/
inductive GoError where
  | missingArgument
  | invalidSeparator
  | notCSV (filename : String)
  | doesNotExist (filename : String)
  | lineMismatch
  | eof
  | fieldCount
  | other (msg : String)
  deriving DecidableEq, Repr

/-- The text of an error, as given to `errors.New` / `fmt.Errorf`. -/
def GoError.Error : GoError → String
  | .missingArgument => "A filepath argument is required"
  | .invalidSeparator => "only comma or semicolon separators are allowed"
  | .notCSV f => "File " ++ f ++ " is not CSV"
  | .doesNotExist f => "File " ++ f ++ " does not exist"
  | .lineMismatch => "Line doesn't match headers format. Skipping..."
  | .eof => "EOF"
  | .fieldCount => "wrong number of fields"
  | .other msg => msg

/-- A non-nil `map[string]string`: an association list in which every key
occurs at most once. -/
abbrev Record := List (String × String)

/-- The map read `m[k]` (with the comma-ok result as an `Option`). -/
def mapGet : Record → String → Option String
  | [], _ => none
  | (k', v') :: rest, k => if k' = k then some v' else mapGet rest k

/-- The map assignment `m[k] = v`: overwrite the entry of `k` or add one. -/
def mapSet : Record → String → String → Record
  | [], k, v => [(k, v)]
  | (k', v') :: rest, k, v =>
    if k' = k then (k, v) :: rest else (k', v') :: mapSet rest k v

/-- The keys of a map. -/
def mapKeys (m : Record) : List String := m.map Prod.fst

/-- A value of type `map[string]string`; `none` is the `nil` map. -/
abbrev GoMap := Option Record

/-! ## `processLine` (lines 114-123) -/

/-- The loop `for i, name := range headers { recordMap[name] = dataList[i] }`,
started at index `i` with the headers that are still to be visited.  The index
is always in range when the loop is entered from `processLine`, because the
lengths have been compared before. -/
def rangeLoop (dataList : List String) : Nat → List String → Record → Record
  | _, [], recordMap => recordMap
  | i, name :: rest, recordMap =>
    rangeLoop dataList (i + 1) rest (mapSet recordMap name (dataList.getD i ""))

/-- The function `processLine`: the pair `(record, err)` it returns. -/
def processLine (headers dataList : List String) : GoMap × Option GoError :=
  if dataList.length ≠ headers.length then
    (none, some GoError.lineMismatch)
  else
    (some (rangeLoop dataList 0 headers []), none)

/-! ## `processCsvFile` (lines 61-101) -/

/-- The struct `inputFile` (lines 13-17). -/
structure inputFile where
  filepath : String
  separator : String
  pretty : Bool
  deriving DecidableEq, Repr

/-- What one call of `reader.Read()` returns: the pair `(line, err)`, where
`none` is the `nil` error. -/
abbrev ReadResult := List String × Option GoError

/-- What a `csv.Reader` parses from the next non-empty line of its input,
before it looks at the number of fields: a record, which has at least one
field, or a parse or read error (a misplaced quote, a failure of the underlying
file) together with the fields parsed so far. -/
inductive RawRecord where
  | fields (first : String) (more : List String)
  | broken (parsed : List String) (msg : String)
  deriving DecidableEq, Repr

/-- The fields of a parsed line. -/
def RawRecord.dst : RawRecord → List String
  | RawRecord.fields first more => first :: more
  | RawRecord.broken parsed _ => parsed

/-- The parse or read error of a parsed line (`none` is `nil`). -/
def RawRecord.err : RawRecord → Option GoError
  | RawRecord.fields _ _ => none
  | RawRecord.broken _ msg => some (GoError.other msg)

/-- An opened file: for the separator character of the reader
(`reader.Comma`), the non-empty lines of the file as the reader parses them.
After the last of them the reader is at the end of the input. -/
abbrev File := Char → List RawRecord

/-- One call of `reader.Read()` on a line that has been parsed, for a reader
whose field `FieldsPerRecord` has the given value: the pair returned and the
new value of `FieldsPerRecord`.  When `FieldsPerRecord` is positive a record
with another number of fields gets the error `csv.ErrFieldCount`; when it is
zero it is set to the number of fields of this record; when it is negative
nothing is checked. -/
def readRecord (fieldsPerRecord : Int) (raw : RawRecord) : ReadResult × Int :=
  if fieldsPerRecord > 0 then
    if (raw.dst.length : Int) ≠ fieldsPerRecord ∧ raw.err = none then
      ((raw.dst, some GoError.fieldCount), fieldsPerRecord)
    else
      ((raw.dst, raw.err), fieldsPerRecord)
  else if fieldsPerRecord = 0 then
    ((raw.dst, raw.err), (raw.dst.length : Int))
  else
    ((raw.dst, raw.err), fieldsPerRecord)

/-- The results of the successive calls of `reader.Read()` for a reader whose
field `FieldsPerRecord` has the given value and whose input holds the given
lines.  Once the list is used up the reader is at the end of the input and
`Read` returns `io.EOF`. -/
def readResults (fieldsPerRecord : Int) : List RawRecord → List ReadResult
  | [] => []
  | raw :: rest =>
    (readRecord fieldsPerRecord raw).1 :: readResults (readRecord fieldsPerRecord raw).2 rest

/-- An operation performed on `writerChannel`. -/
inductive ChanEvent where
  | send (record : GoMap)
  | close
  deriving DecidableEq, Repr

/-- How a call ends: it returns to its caller, or the process is terminated by
`exitGracefully` (lines 103-106), which prints the error and calls
`os.Exit(1)`. -/
inductive Termination where
  | returned
  | exited (err : GoError)
  deriving DecidableEq, Repr

/-- The observable behaviour of one call of `processCsvFile`: the operations on
the channel in the order they are performed, the diagnostics printed by line 96
(the line and the error), and how the call ends. -/
structure Run where
  events : List ChanEvent
  diagnostics : List (List String × GoError)
  result : Termination
  deriving DecidableEq, Repr

/-- The loop of lines 81-100, given the header row and the results that the
calls of `reader.Read()` still to come return. -/
def rowLoop (headers : List String) : List ReadResult → Run
  | [] => ⟨[ChanEvent.close], [], Termination.returned⟩
  | (line, err) :: rest =>
    if err = some GoError.eof then
      ⟨[ChanEvent.close], [], Termination.returned⟩
    else
      match err with
      | some e => ⟨[], [], Termination.exited e⟩
      | none =>
        let next := rowLoop headers rest
        match processLine headers line with
        | (record, some e) =>
          ⟨ChanEvent.send record :: next.events, (line, e) :: next.diagnostics, next.result⟩
        | (record, none) =>
          ⟨ChanEvent.send record :: next.events, next.diagnostics, next.result⟩

/-- The function `processCsvFile`.  `osOpen` is the result of `os.Open` for
each path.  The reader is built by `csv.NewReader` (line 72), which leaves
`FieldsPerRecord` at zero, and the program never assigns that field. -/
def processCsvFile (osOpen : String → Except GoError File) (fileData : inputFile) : Run :=
  match osOpen fileData.filepath with
  | Except.error e => ⟨[], [], Termination.exited e⟩
  | Except.ok file =>
    let comma := if fileData.separator = "semicolon" then ';' else ','
    match readResults 0 (file comma) with
    | [] => ⟨[], [], Termination.exited GoError.eof⟩
    | (_, some e) :: _ => ⟨[], [], Termination.exited e⟩
    | (headers, none) :: rest => rowLoop headers rest

/-- The values sent on the channel, in order. -/
def sentValues : List ChanEvent → List GoMap
  | [] => []
  | ChanEvent.send r :: rest => r :: sentValues rest
  | ChanEvent.close :: rest => sentValues rest

/-- The number of `close` operations in a trace. -/
def closeCount (evs : List ChanEvent) : Nat := evs.count ChanEvent.close

/-- A read that returns a line and the `nil` error. -/
def okRead (line : List String) : ReadResult := (line, none)

/-- The reader is at the end of the input: no further result, or `io.EOF`. -/
def atEOF (reads : List ReadResult) : Prop :=
  reads = [] ∨ ∃ l more, reads = (l, some GoError.eof) :: more

/-- The header read fails: the reader is at the end of the input already (the
file is empty, `Read` returns `io.EOF`), or the first read returns an error. -/
def headerReadFails (reads : List ReadResult) : Prop :=
  reads = [] ∨ ∃ l e rest, reads = (l, some e) :: rest

/-- Some data-row read fails with an error other than `io.EOF`, and no earlier
read has returned `io.EOF`. -/
def rowReadFails (reads : List ReadResult) : Prop :=
  ∃ i l e, reads.get? i = some (l, some e) ∧ e ≠ GoError.eof ∧
    ∀ j, j < i → ∀ l', reads.get? j ≠ some (l', some GoError.eof)

/-- The file with the header `a,b` and the rows `1,2` and `3,4` (the same
fields whichever of the two separators the file is written and read with). -/
def sampleFile : File :=
  fun _ => [RawRecord.fields "a" ["b"], RawRecord.fields "1" ["2"], RawRecord.fields "3" ["4"]]

/-- The file with the header `a,b` and the rows `1,2,3` and `4,5`. -/
def mismatchFile : File :=
  fun _ => [RawRecord.fields "a" ["b"], RawRecord.fields "1" ["2", "3"],
    RawRecord.fields "4" ["5"]]

/-! ## `getFileData` (lines 19-44) -/

/-- The command-line flag set after the definitions of lines 27-28 and some
parsing: the current values of the two flags, the names of the flags that have
been set (`actual`), and the remaining arguments (`flag.Args()`). -/
structure FlagState where
  separator : String
  pretty : Bool
  actual : List String
  args : List String
  deriving DecidableEq, Repr

/-- The result of `flag.Parse()`.  The command-line flag set uses
`flag.ExitOnError`: a parsing error terminates the process. -/
inductive ParseResult where
  | ok (st : FlagState)
  | exit
  deriving DecidableEq, Repr

/-- The function `strconv.ParseBool`, which reads the value of a boolean flag. -/
def parseBool (s : String) : Option Bool :=
  if s ∈ ["1", "t", "T", "TRUE", "true", "True"] then some true
  else if s ∈ ["0", "f", "F", "FALSE", "false", "False"] then some false
  else none

/-- Split `name=value` at the first `=` that is not the first character. -/
def splitEq : List Char → List Char × Option (List Char)
  | [] => ([], none)
  | c :: cs =>
    match cs.span (fun x => x ≠ '=') with
    | (pre, []) => (c :: pre, none)
    | (pre, _ :: value) => (c :: pre, some value)

/-- The function `flag.Parse()` for the flags `separator` (a string) and
`pretty` (a boolean), following the flag package of the Go standard library:
parsing stops at the first argument that is not a flag (one that is shorter
than two characters or does not start with `-`) and at `--`; a flag is written
`-name`, `--name`, `-name=value` or `--name=value`; a flag that is not boolean
takes the next argument as its value when none is attached. -/
def flagParse (separator : String) (pretty : Bool) (actual : List String) :
    List String → ParseResult
  | [] => ParseResult.ok ⟨separator, pretty, actual, []⟩
  | s :: rest =>
    let cs := s.toList
    if cs.length < 2 ∨ cs.head? ≠ some '-' then
      ParseResult.ok ⟨separator, pretty, actual, s :: rest⟩
    else
      let numMinuses := if cs.get? 1 = some '-' then 2 else 1
      if numMinuses = 2 ∧ cs.length = 2 then
        ParseResult.ok ⟨separator, pretty, actual, rest⟩
      else
        let name := cs.drop numMinuses
        if name = [] ∨ name.head? = some '-' ∨ name.head? = some '=' then
          ParseResult.exit
        else
          match splitEq name with
          | (nm, value) =>
            if String.mk nm = "separator" then
              match value with
              | some v => flagParse (String.mk v) pretty ("separator" :: actual) rest
              | none =>
                match rest with
                | [] => ParseResult.exit
                | v :: rest' => flagParse v pretty ("separator" :: actual) rest'
            else if String.mk nm = "pretty" then
              match value with
              | some v =>
                match parseBool (String.mk v) with
                | some b => flagParse separator b ("pretty" :: actual) rest
                | none => ParseResult.exit
              | none => flagParse separator true ("pretty" :: actual) rest
            else
              ParseResult.exit

/-- How a call of `getFileData` ends: it returns the pair `(inputFile, err)`,
or the process is terminated inside `flag.Parse()`. -/
inductive GetFileDataResult where
  | returned (fileData : inputFile) (err : Option GoError)
  | exited
  deriving DecidableEq, Repr

/-- The function `getFileData`; `osArgs` is `os.Args` (the program name
followed by the command-line arguments). -/
def getFileData (osArgs : List String) : GetFileDataResult :=
  if osArgs.length < 2 then
    GetFileDataResult.returned ⟨"", "", false⟩ (some GoError.missingArgument)
  else
    match flagParse "comma" false [] (osArgs.drop 1) with
    | ParseResult.exit => GetFileDataResult.exited
    | ParseResult.ok st =>
      let fileLocation := st.args.getD 0 ""
      if ¬ (st.separator = "comma" ∨ st.separator = "semicolon") then
        GetFileDataResult.returned ⟨"", "", false⟩ (some GoError.invalidSeparator)
      else
        GetFileDataResult.returned ⟨fileLocation, st.separator, st.pretty⟩ none

/-! ## `checkIfValidFile` (lines 46-59) -/

/-- The scan of `filepath.Ext` over the path read backwards; `acc` is the part
of the path behind the current position. -/
def extScan : List Char → List Char → List Char
  | [], _ => []
  | c :: before, acc =>
    if c = '/' then []
    else if c = '.' then '.' :: acc
    else extScan before (c :: acc)

/-- The function `filepath.Ext` (with `/` as the path separator): the suffix
that starts at the last dot of the last element of the path, or the empty
string when that element has no dot. -/
def Ext (path : String) : String := String.mk (extScan path.toList.reverse [])

/-- The error returned by `os.Stat`, as far as the program looks at it:
whether `os.IsNotExist` holds of it, and its text. -/
structure StatError where
  isNotExist : Bool
  msg : String
  deriving DecidableEq, Repr

/-- The function `checkIfValidFile`; `osStat` gives the error returned by
`os.Stat` for each path (`none` is `nil`). -/
def checkIfValidFile (osStat : String → Option StatError) (filename : String) :
    Bool × Option GoError :=
  if Ext filename ≠ ".csv" then
    (false, some (GoError.notCSV filename))
  else
    match osStat filename with
    | some err =>
      if err.isNotExist then (false, some (GoError.doesNotExist filename))
      else (true, none)
    | none => (true, none)

/-! ## Lemmas on maps and on `processLine` -/

theorem mapGet_mapSet_same (m : Record) (k v : String) :
    mapGet (mapSet m k v) k = some v := by
  induction m with
  | nil => simp [mapSet, mapGet]
  | cons p rest ih =>
    obtain ⟨k', v'⟩ := p
    by_cases h : k' = k
    · simp [mapSet, mapGet, h]
    · simp [mapSet, mapGet, h, ih]

theorem mapGet_mapSet_other (m : Record) (k v k₀ : String) (hne : k ≠ k₀) :
    mapGet (mapSet m k v) k₀ = mapGet m k₀ := by
  induction m with
  | nil => simp [mapSet, mapGet, hne]
  | cons p rest ih =>
    obtain ⟨k', v'⟩ := p
    by_cases h : k' = k
    · subst h
      simp [mapSet, mapGet, hne]
    · by_cases h₀ : k' = k₀
      · subst h₀
        simp [mapSet, mapGet, h]
      · simp [mapSet, mapGet, h, h₀, ih]

theorem mapKeys_mapSet_nodup (m : Record) (k v : String)
    (h : (mapKeys m).Nodup) : (mapKeys (mapSet m k v)).Nodup ∧
      ∀ x, x ∈ mapKeys (mapSet m k v) ↔ x = k ∨ x ∈ mapKeys m := by
  induction m with
  | nil => simp [mapSet, mapKeys]
  | cons p rest ih =>
    obtain ⟨k', v'⟩ := p
    have hr : (mapKeys rest).Nodup := by
      simp only [mapKeys, List.map_cons, List.nodup_cons] at h
      exact h.2
    have hk' : k' ∉ mapKeys rest := by
      simp only [mapKeys, List.map_cons, List.nodup_cons] at h
      exact h.1
    obtain ⟨ih1, ih2⟩ := ih hr
    by_cases hkk : k' = k
    · subst hkk
      refine ⟨?_, ?_⟩
      · simpa [mapSet, mapKeys] using h
      · intro x
        simp [mapSet, mapKeys]
    · refine ⟨?_, ?_⟩
      · simp only [mapSet, hkk, if_false]
        show (k' :: mapKeys (mapSet rest k v)).Nodup
        refine List.nodup_cons.mpr ⟨?_, ih1⟩
        intro hmem
        rcases (ih2 k').mp hmem with h1 | h1
        · exact hkk h1
        · exact hk' h1
      · intro x
        simp only [mapSet, hkk, if_false]
        show x ∈ k' :: mapKeys (mapSet rest k v) ↔ x = k ∨ x ∈ k' :: mapKeys rest
        simp only [List.mem_cons, ih2 x]
        tauto

theorem rangeLoop_nodup (d : List String) (hs : List String) :
    ∀ (i : Nat) (m : Record), (mapKeys m).Nodup → (mapKeys (rangeLoop d i hs m)).Nodup := by
  induction hs with
  | nil => intro i m h; simpa [rangeLoop] using h
  | cons name rest ih =>
    intro i m h
    simp only [rangeLoop]
    exact ih _ _ (mapKeys_mapSet_nodup m name _ h).1

/-- A key that is not among the headers is left untouched by the loop. -/
theorem rangeLoop_get_not_mem (d : List String) (k : String) (hs : List String) :
    ∀ (i : Nat) (m : Record), k ∉ hs → mapGet (rangeLoop d i hs m) k = mapGet m k := by
  induction hs with
  | nil => intro i m _; simp [rangeLoop]
  | cons name rest ih =>
    intro i m hk
    simp only [List.mem_cons, not_or] at hk
    simp only [rangeLoop]
    rw [ih _ _ hk.2]
    exact mapGet_mapSet_other m name _ k (fun h => hk.1 h.symm)

/-- After the loop, the header at position `j` is mapped to the cell at the
same position, provided the same name does not occur at a later position. -/
theorem rangeLoop_get_last (d : List String) (hs : List String) :
    ∀ (i : Nat) (m : Record) (j : Nat) (k : String), hs.get? j = some k →
      (∀ j', j < j' → hs.get? j' ≠ some k) →
      mapGet (rangeLoop d i hs m) k = some (d.getD (i + j) "") := by
  induction hs with
  | nil => intro i m j k hj; simp at hj
  | cons name rest ih =>
    intro i m j k hj hlast
    cases j with
    | zero =>
      simp only [List.get?_cons_zero, Option.some.injEq] at hj
      subst hj
      have hnot : name ∉ rest := by
        intro hmem
        obtain ⟨n, hn⟩ := List.get?_of_mem hmem
        exact hlast (n + 1) (Nat.succ_pos n) (by simpa using hn)
      simp only [rangeLoop]
      rw [rangeLoop_get_not_mem d name rest _ _ hnot]
      simpa using mapGet_mapSet_same m name (d.getD i "")
    | succ j =>
      simp only [List.get?_cons_succ] at hj
      simp only [rangeLoop]
      have := ih (i + 1) (mapSet m name (d.getD i "")) j k hj (by
        intro j' hj' hget
        exact hlast (j' + 1) (Nat.succ_lt_succ hj') (by simpa using hget))
      rw [this]
      congr 2
      omega

/-- The keys present after the loop: the headers and the keys present before. -/
theorem rangeLoop_isSome (d : List String) (k : String) (hs : List String) :
    ∀ (i : Nat) (m : Record),
      (mapGet (rangeLoop d i hs m) k).isSome = true ↔ k ∈ hs ∨ (mapGet m k).isSome = true := by
  induction hs with
  | nil => intro i m; simp [rangeLoop]
  | cons name rest ih =>
    intro i m
    simp only [rangeLoop, ih, List.mem_cons]
    by_cases h : name = k
    · subst h
      simp [mapGet_mapSet_same]
    · rw [mapGet_mapSet_other m name _ k h]
      constructor
      · rintro (h1 | h1)
        · exact Or.inl (Or.inr h1)
        · exact Or.inr h1
      · rintro ((h1 | h1) | h1)
        · exact absurd h1.symm h
        · exact Or.inl h1
        · exact Or.inr h1


theorem mapGet_isSome_iff (m : Record) (k : String) :
    (mapGet m k).isSome = true ↔ k ∈ mapKeys m := by
  induction m with
  | nil => simp [mapGet, mapKeys]
  | cons p rest ih =>
    obtain ⟨k', v'⟩ := p
    by_cases h : k' = k
    · simp [mapGet, mapKeys, h]
    · have h' : ¬ k = k' := fun e => h e.symm
      simpa [mapGet, mapKeys, h, h'] using ih

/-! ## Lemmas on `processCsvFile` -/

theorem rowLoop_atEOF (headers : List String) (tail : List ReadResult) (h : atEOF tail) :
    rowLoop headers tail = ⟨[ChanEvent.close], [], Termination.returned⟩ := by
  rcases h with h | ⟨l, more, h⟩
  · subst h; rfl
  · subst h; simp [rowLoop]

theorem rowLoop_okRead (headers line : List String) (rest : List ReadResult) :
    (rowLoop headers (okRead line :: rest)).events =
        ChanEvent.send (processLine headers line).1 :: (rowLoop headers rest).events ∧
      (rowLoop headers (okRead line :: rest)).result = (rowLoop headers rest).result := by
  unfold okRead
  rw [rowLoop]
  simp only [reduceCtorEq, if_false]
  rcases hp : processLine headers line with ⟨record, _ | e⟩ <;> simp

/-- The trace of the loop when every read up to the end of the input returns a
line and no error. -/
theorem rowLoop_all_ok (headers : List String) (tail : List ReadResult) (h : atEOF tail) :
    ∀ rows : List (List String),
      (rowLoop headers (rows.map okRead ++ tail)).events =
          rows.map (fun r => ChanEvent.send (processLine headers r).1) ++ [ChanEvent.close] ∧
        (rowLoop headers (rows.map okRead ++ tail)).result = Termination.returned := by
  intro rows
  induction rows with
  | nil => simp [rowLoop_atEOF headers tail h]
  | cons r rows ih =>
    obtain ⟨h1, h2⟩ := rowLoop_okRead headers r (rows.map okRead ++ tail)
    simp only [List.map_cons, List.cons_append]
    rw [h1, h2, ih.1, ih.2]
    simp

theorem sentValues_append_close (vs : List GoMap) :
    sentValues (vs.map ChanEvent.send ++ [ChanEvent.close]) = vs := by
  induction vs with
  | nil => simp [sentValues]
  | cons v vs ih => simp [sentValues, ih]

theorem closeCount_append_close (vs : List GoMap) :
    closeCount (vs.map ChanEvent.send ++ [ChanEvent.close]) = 1 := by
  induction vs with
  | nil => simp [closeCount]
  | cons v vs ih =>
    simp only [closeCount, List.map_cons, List.cons_append] at ih ⊢
    rw [List.count_cons_of_ne (by simp)]
    exact ih

theorem processCsvFile_of_header (osOpen : String → Except GoError File)
    (fileData : inputFile) (file : File) (headers : List String) (rest : List ReadResult)
    (hopen : osOpen fileData.filepath = Except.ok file)
    (hreads : readResults 0 (file (if fileData.separator = "semicolon" then ';' else ',')) =
      okRead headers :: rest) :
    processCsvFile osOpen fileData = rowLoop headers rest := by
  unfold okRead at hreads
  simp only [processCsvFile, hopen, hreads]


/-! ## The claims on `processLine` -/

/-- C1: for a header list and a data row of the same length, `processLine`
succeeds (nil error) and returns the record whose keys are exactly the header
names, each once, and which maps a name to the cell at the last position where
the name occurs in the header; for pairwise distinct headers the header at
position `j` is mapped to the cell at position `j`. -/
theorem processLine_builds_record (headers dataList : List String)
    (hlen : dataList.length = headers.length) :
    ∃ record : Record,
      processLine headers dataList = (some record, none) ∧
      (mapKeys record).Nodup ∧
      (∀ k, k ∈ mapKeys record ↔ k ∈ headers) ∧
      (∀ k, (mapGet record k).isSome = true ↔ k ∈ headers) ∧
      (∀ j k, headers.get? j = some k → (∀ j', j < j' → headers.get? j' ≠ some k) →
        ∃ v, dataList.get? j = some v ∧ mapGet record k = some v) ∧
      (headers.Nodup → ∀ j k, headers.get? j = some k →
        ∃ v, dataList.get? j = some v ∧ mapGet record k = some v) := by
  have hlast : ∀ j k, headers.get? j = some k → (∀ j', j < j' → headers.get? j' ≠ some k) →
      ∃ v, dataList.get? j = some v ∧ mapGet (rangeLoop dataList 0 headers []) k = some v := by
    intro j k hj hl
    have hjlt : j < dataList.length := by
      rw [hlen]
      exact (List.get?_eq_some.mp hj).1
    refine ⟨dataList.getD j "", ?_, ?_⟩
    · rw [List.getD_eq_getElem _ _ hjlt]
      exact List.get?_eq_get hjlt
    · simpa using rangeLoop_get_last dataList headers 0 [] j k hj hl
  have hsome : ∀ k, (mapGet (rangeLoop dataList 0 headers []) k).isSome = true ↔ k ∈ headers := by
    intro k
    rw [rangeLoop_isSome]
    simp [mapGet]
  refine ⟨rangeLoop dataList 0 headers [], ?_, ?_, ?_, hsome, hlast, ?_⟩
  · simp [processLine, hlen]
  · exact rangeLoop_nodup dataList headers 0 [] (by simp [mapKeys])
  · intro k
    rw [← mapGet_isSome_iff]
    exact hsome k
  · intro hnd j k hj
    refine hlast j k hj ?_
    intro j' hjj' hj'
    have h1 := (List.get?_eq_some.mp hj)
    have h2 := (List.get?_eq_some.mp hj')
    obtain ⟨hjl, hje⟩ := h1
    obtain ⟨hjl', hje'⟩ := h2
    have : (⟨j, hjl⟩ : Fin headers.length) = ⟨j', hjl'⟩ :=
      (List.nodup_iff_injective_get.mp hnd) (hje.trans hje'.symm)
    have : j = j' := by simpa using congrArg Fin.val this
    omega

/-- The instance of C1 given with the claim: headers `["a","b"]` and the row
`["1","2"]`. -/
theorem processLine_builds_record_witness :
    ["1", "2"].length = ["a", "b"].length ∧
    ∃ record : Record,
      processLine ["a", "b"] ["1", "2"] = (some record, none) ∧
      (mapKeys record).Nodup ∧
      (∀ k, k ∈ mapKeys record ↔ k ∈ ["a", "b"]) ∧
      (∀ k, (mapGet record k).isSome = true ↔ k ∈ ["a", "b"]) ∧
      (∀ j k, ["a", "b"].get? j = some k → (∀ j', j < j' → ["a", "b"].get? j' ≠ some k) →
        ∃ v, ["1", "2"].get? j = some v ∧ mapGet record k = some v) ∧
      (["a", "b"].Nodup → ∀ j k, ["a", "b"].get? j = some k →
        ∃ v, ["1", "2"].get? j = some v ∧ mapGet record k = some v) :=
  ⟨by decide, processLine_builds_record ["a", "b"] ["1", "2"] (by decide)⟩

/-- C2: `processLine` returns an error if and only if the number of fields of
the row differs from the number of headers; in that case the record is nil; a
(non-nil) record is returned exactly when the two lengths are equal.  With
headers `["a","b"]` and the row `["1"]` the result is a nil record and the
error. -/
theorem processLine_error_iff_length_mismatch (headers dataList : List String) :
    ((processLine headers dataList).2 ≠ none ↔ dataList.length ≠ headers.length) ∧
    ((processLine headers dataList).2 ≠ none → (processLine headers dataList).1 = none) ∧
    ((processLine headers dataList).1 ≠ none ↔ dataList.length = headers.length) ∧
    ((processLine headers dataList).1 ≠ none → (processLine headers dataList).2 = none) ∧
    processLine ["a", "b"] ["1"] = (none, some GoError.lineMismatch) := by
  refine ⟨?_, ?_, ?_, ?_, by decide⟩ <;>
    by_cases h : dataList.length = headers.length <;> simp [processLine, h]

/-! ## Lemmas on the reader -/

theorem rowLoop_exited_iff (headers : List String) :
    ∀ reads : List ReadResult,
      (∃ e, (rowLoop headers reads).result = Termination.exited e) ↔ rowReadFails reads := by
  intro reads
  induction reads with
  | nil =>
    constructor
    · rintro ⟨e, he⟩
      simp [rowLoop] at he
    · rintro ⟨i, l, e, hi, _⟩
      simp at hi
  | cons r rest ih =>
    obtain ⟨line, err⟩ := r
    cases err with
    | none =>
      have hres := (rowLoop_okRead headers line rest).2
      unfold okRead at hres
      rw [hres, ih]
      constructor
      · rintro ⟨i, l, e, hi, hne, hbefore⟩
        refine ⟨i + 1, l, e, by simpa using hi, hne, ?_⟩
        intro j hj l' hget
        cases j with
        | zero => simp at hget
        | succ j => exact hbefore j (by omega) l' (by simpa using hget)
      · rintro ⟨i, l, e, hi, hne, hbefore⟩
        cases i with
        | zero => simp at hi
        | succ i =>
          refine ⟨i, l, e, by simpa using hi, hne, ?_⟩
          intro j hj l' hget
          exact hbefore (j + 1) (by omega) l' (by simpa using hget)
    | some e =>
      by_cases he : e = GoError.eof
      · subst he
        constructor
        · rintro ⟨e, h⟩
          simp [rowLoop] at h
        · rintro ⟨i, l, e, hi, hne, hbefore⟩
          cases i with
          | zero =>
            simp only [List.get?_cons_zero, Option.some.injEq, Prod.mk.injEq] at hi
            exact absurd hi.2.symm hne
          | succ i => exact absurd rfl (hbefore 0 (Nat.succ_pos i) line)
      · constructor
        · intro _
          exact ⟨0, line, e, rfl, he, fun j hj => absurd hj (Nat.not_lt_zero j)⟩
        · intro _
          exact ⟨e, by simp [rowLoop, he]⟩


/-- With the termination of the process as an outcome, `processCsvFile` ends
fatally if and only if the file cannot be opened, or the header read returns
an error (the end of the input included), or some data-row read returns an
error other than `io.EOF`; when the header read fails nothing has been done on
the channel (no send, no close). -/
theorem processCsvFile_exited_iff (osOpen : String → Except GoError File)
    (fileData : inputFile) :
    ((∃ e, (processCsvFile osOpen fileData).result = Termination.exited e) ↔
      ((∃ e, osOpen fileData.filepath = Except.error e) ∨
        ∃ file, osOpen fileData.filepath = Except.ok file ∧
          (headerReadFails (readResults 0 (file (if fileData.separator = "semicolon" then ';' else ','))) ∨
            ∃ headers rest,
              readResults 0 (file (if fileData.separator = "semicolon" then ';' else ',')) =
                okRead headers :: rest ∧ rowReadFails rest))) ∧
    (∀ file, osOpen fileData.filepath = Except.ok file →
      headerReadFails (readResults 0 (file (if fileData.separator = "semicolon" then ';' else ','))) →
      (processCsvFile osOpen fileData).events = []) := by
  refine ⟨?_, ?_⟩
  · cases hopen : osOpen fileData.filepath with
    | error e =>
      constructor
      · intro _; exact Or.inl ⟨e, rfl⟩
      · intro _; exact ⟨e, by simp [processCsvFile, hopen]⟩
    | ok file =>
      rcases hreads : readResults 0 (file (if fileData.separator = "semicolon" then ';' else ',')) with
        _ | ⟨⟨line, err⟩, rest⟩
      · constructor
        · intro _
          exact Or.inr ⟨file, rfl, Or.inl (Or.inl hreads)⟩
        · intro _
          exact ⟨GoError.eof, by simp [processCsvFile, hopen, hreads]⟩
      · cases err with
        | some e =>
          constructor
          · intro _
            exact Or.inr ⟨file, rfl, Or.inl (Or.inr ⟨line, e, rest, hreads⟩)⟩
          · intro _
            exact ⟨e, by simp [processCsvFile, hopen, hreads]⟩
        | none =>
          have hrun : processCsvFile osOpen fileData = rowLoop line rest :=
            processCsvFile_of_header osOpen fileData file line rest hopen hreads
          rw [hrun, rowLoop_exited_iff]
          constructor
          · intro h
            exact Or.inr ⟨file, rfl, Or.inr ⟨line, rest, hreads, h⟩⟩
          · rintro (⟨e, he⟩ | ⟨file', hf, h⟩)
            · cases he
            · cases hf
              rw [hreads] at h
              rcases h with (h | ⟨l, e, rest', h⟩) | ⟨headers, rest', h, hfail⟩
              · cases h
              · cases h
              · unfold okRead at h
                cases h
                exact hfail
  · intro file hopen hfail
    rcases hfail with h | ⟨l, e, rest, h⟩ <;> simp [processCsvFile, hopen, h]

/-! ## The claims on `processCsvFile` -/

/-- C4: when the header read and every data-row read up to the end of the
input succeed, the trace of channel operations is a sequence of sends followed
by one close: there is exactly one close, it is the last operation, and the
call returns. -/
theorem processCsvFile_closes_once_at_end (osOpen : String → Except GoError File)
    (fileData : inputFile) (file : File) (headers : List String)
    (rows : List (List String)) (tail : List ReadResult)
    (hopen : osOpen fileData.filepath = Except.ok file)
    (hreads : readResults 0 (file (if fileData.separator = "semicolon" then ';' else ',')) =
      okRead headers :: (rows.map okRead ++ tail))
    (hend : atEOF tail) :
    (processCsvFile osOpen fileData).result = Termination.returned ∧
    closeCount (processCsvFile osOpen fileData).events = 1 ∧
    (processCsvFile osOpen fileData).events.getLast? = some ChanEvent.close ∧
    ∃ pushes : List GoMap,
      pushes.length = rows.length ∧
      (processCsvFile osOpen fileData).events = pushes.map ChanEvent.send ++ [ChanEvent.close] := by
  rw [processCsvFile_of_header osOpen fileData file headers _ hopen hreads]
  obtain ⟨hev, hres⟩ := rowLoop_all_ok headers tail hend rows
  have hshape : (rowLoop headers (rows.map okRead ++ tail)).events =
      (rows.map (fun r => (processLine headers r).1)).map ChanEvent.send ++ [ChanEvent.close] := by
    rw [hev]; simp
  refine ⟨hres, ?_, ?_, ⟨rows.map (fun r => (processLine headers r).1), by simp, hshape⟩⟩
  · rw [hshape]; exact closeCount_append_close _
  · rw [hshape]; simp

/-- An instance of C4: the file with the header `a,b` and the rows `1,2` and
`3,4`. -/
theorem processCsvFile_closes_once_at_end_witness :
    (fun _ => Except.ok sampleFile : String → Except GoError File)
        (inputFile.mk "in.csv" "comma" false).filepath = Except.ok sampleFile ∧
    readResults 0 (sampleFile (if (inputFile.mk "in.csv" "comma" false).separator = "semicolon"
        then ';' else ',')) =
      okRead ["a", "b"] :: ([["1", "2"], ["3", "4"]].map okRead ++ []) ∧
    atEOF [] ∧
    ((processCsvFile (fun _ => Except.ok sampleFile) ⟨"in.csv", "comma", false⟩).result =
      Termination.returned ∧
    closeCount (processCsvFile (fun _ => Except.ok sampleFile)
      ⟨"in.csv", "comma", false⟩).events = 1 ∧
    (processCsvFile (fun _ => Except.ok sampleFile)
      ⟨"in.csv", "comma", false⟩).events.getLast? = some ChanEvent.close ∧
    ∃ pushes : List GoMap,
      pushes.length = [["1", "2"], ["3", "4"]].length ∧
      (processCsvFile (fun _ => Except.ok sampleFile) ⟨"in.csv", "comma", false⟩).events =
        pushes.map ChanEvent.send ++ [ChanEvent.close]) :=
  ⟨rfl, by decide, Or.inl rfl,
    processCsvFile_closes_once_at_end (fun _ => Except.ok sampleFile)
      ⟨"in.csv", "comma", false⟩ sampleFile ["a", "b"] [["1", "2"], ["3", "4"]] []
      rfl (by decide) (Or.inl rfl)⟩

/-- C5: when the header read and every data-row read up to the end of the
input succeed, the values sent on the channel are, in the order of the rows,
the records `processLine(headers, row)`: one value per row, none reordered,
duplicated or dropped; in particular the non-nil records sent are the records
of the rows that have as many fields as the header, in the order of these
rows. -/
theorem processCsvFile_sends_in_row_order (osOpen : String → Except GoError File)
    (fileData : inputFile) (file : File) (headers : List String)
    (rows : List (List String)) (tail : List ReadResult)
    (hopen : osOpen fileData.filepath = Except.ok file)
    (hreads : readResults 0 (file (if fileData.separator = "semicolon" then ';' else ',')) =
      okRead headers :: (rows.map okRead ++ tail))
    (hend : atEOF tail) :
    sentValues (processCsvFile osOpen fileData).events =
        rows.map (fun r => (processLine headers r).1) ∧
    (sentValues (processCsvFile osOpen fileData).events).filter (fun v => v.isSome) =
        (rows.filter (fun r => r.length = headers.length)).map
          (fun r => (processLine headers r).1) := by
  rw [processCsvFile_of_header osOpen fileData file headers _ hopen hreads]
  obtain ⟨hev, -⟩ := rowLoop_all_ok headers tail hend rows
  have hsent : sentValues (rowLoop headers (rows.map okRead ++ tail)).events =
      rows.map (fun r => (processLine headers r).1) := by
    rw [hev]
    have := sentValues_append_close (rows.map (fun r => (processLine headers r).1))
    simpa using this
  refine ⟨hsent, ?_⟩
  rw [hsent, List.filter_map]
  congr 1
  apply List.filter_congr
  intro r _
  by_cases h : r.length = headers.length <;> simp [processLine, h]

/-- An instance of C5: the file with the header `a;b` and the rows `1;2` and
`3;4`, read with the semicolon as separator. -/
theorem processCsvFile_sends_in_row_order_witness :
    (fun _ => Except.ok sampleFile : String → Except GoError File)
        (inputFile.mk "in.csv" "semicolon" true).filepath = Except.ok sampleFile ∧
    readResults 0 (sampleFile (if (inputFile.mk "in.csv" "semicolon" true).separator =
        "semicolon" then ';' else ',')) =
      okRead ["a", "b"] :: ([["1", "2"], ["3", "4"]].map okRead ++ []) ∧
    atEOF [] ∧
    (sentValues (processCsvFile (fun _ => Except.ok sampleFile)
        ⟨"in.csv", "semicolon", true⟩).events =
        [["1", "2"], ["3", "4"]].map (fun r => (processLine ["a", "b"] r).1) ∧
    (sentValues (processCsvFile (fun _ => Except.ok sampleFile)
        ⟨"in.csv", "semicolon", true⟩).events).filter (fun v => v.isSome) =
        ([["1", "2"], ["3", "4"]].filter (fun r => r.length = ["a", "b"].length)).map
          (fun r => (processLine ["a", "b"] r).1)) :=
  ⟨rfl, by decide, Or.inl rfl,
    processCsvFile_sends_in_row_order (fun _ => Except.ok sampleFile)
      ⟨"in.csv", "semicolon", true⟩ sampleFile ["a", "b"] [["1", "2"], ["3", "4"]] []
      rfl (by decide) (Or.inl rfl)⟩

/-- C10 (the code at the failing input): the file with the header `a,b` and
the rows `1,2,3` and `4,5`.  The read of the row `1,2,3`, whose number of
fields differs from the header, returns `csv.ErrFieldCount`, and lines 89-90
terminate the process: nothing is sent, the channel is not closed, nothing is
printed by line 96, and the row `4,5` is never read. -/
theorem processCsvFile_mismatched_row_is_fatal :
    readResults 0 (mismatchFile ',') =
      [okRead ["a", "b"], (["1", "2", "3"], some GoError.fieldCount), okRead ["4", "5"]] ∧
    processCsvFile (fun _ => Except.ok mismatchFile) ⟨"in.csv", "comma", false⟩ =
      ⟨[], [], Termination.exited GoError.fieldCount⟩ := by
  decide

/-! ## Lemmas on `getFileData` and `checkIfValidFile` -/

theorem flagParse_actual_aux : ∀ (n : Nat) (args : List String), args.length ≤ n →
    ∀ (separator : String) (pretty : Bool) (actual : List String) (st : FlagState),
      flagParse separator pretty actual args = ParseResult.ok st →
      (∀ x, x ∈ actual → x ∈ st.actual) ∧
      ("separator" ∉ st.actual → st.separator = separator) ∧
      ("pretty" ∉ st.actual → st.pretty = pretty) := by
  intro n
  induction n with
  | zero =>
    intro args hlen separator pretty actual st h
    have : args = [] := List.length_eq_zero.mp (Nat.le_zero.mp hlen)
    subst this
    simp only [flagParse, ParseResult.ok.injEq] at h
    subst h
    simp
  | succ n ih =>
    intro args hlen separator pretty actual st h
    cases args with
    | nil =>
      simp only [flagParse, ParseResult.ok.injEq] at h
      subst h
      simp
    | cons s rest =>
      have hrest : rest.length ≤ n := by simpa using hlen
      have stop : ∀ args', ParseResult.ok ⟨separator, pretty, actual, args'⟩ = ParseResult.ok st →
          (∀ x, x ∈ actual → x ∈ st.actual) ∧
          ("separator" ∉ st.actual → st.separator = separator) ∧
          ("pretty" ∉ st.actual → st.pretty = pretty) := by
        intro args' h'
        cases h'
        simp
      have key : ∀ (sep' : String) (pretty' : Bool) (nm : String) (rest' : List String),
          rest'.length ≤ n → (nm = "separator" ∨ sep' = separator) →
          (nm = "pretty" ∨ pretty' = pretty) →
          flagParse sep' pretty' (nm :: actual) rest' = ParseResult.ok st →
          (∀ x, x ∈ actual → x ∈ st.actual) ∧
          ("separator" ∉ st.actual → st.separator = separator) ∧
          ("pretty" ∉ st.actual → st.pretty = pretty) := by
        intro sep' pretty' nm rest' hl hs hp h'
        obtain ⟨a, b, c⟩ := ih rest' hl sep' pretty' (nm :: actual) st h'
        refine ⟨fun x hx => a x (List.mem_cons_of_mem _ hx), ?_, ?_⟩
        · intro hn
          rcases hs with hs | hs
          · subst hs; exact absurd (a _ (List.mem_cons_self _ _)) hn
          · rw [← hs]; exact b hn
        · intro hn
          rcases hp with hp | hp
          · subst hp; exact absurd (a _ (List.mem_cons_self _ _)) hn
          · rw [← hp]; exact c hn
      rw [flagParse.eq_def] at h
      simp only at h
      repeat' split at h
      all_goals first
        | exact stop _ h
        | exact absurd h (by simp)
        | exact key _ _ _ _ (by first | exact hrest | (simp only [List.length_cons] at hrest; omega))
            (by first | exact Or.inl rfl | exact Or.inr rfl)
            (by first | exact Or.inl rfl | exact Or.inr rfl) h

/-- The flag `--separator` followed by its value in the next argument. -/
theorem flagParse_separator_next (separator : String) (pretty : Bool) (actual : List String)
    (v : String) (rest : List String) :
    flagParse separator pretty actual ("--separator" :: v :: rest) =
      flagParse v pretty ("separator" :: actual) rest := by
  rw [flagParse.eq_def]
  rfl

/-- The flag `--separator=v`, with the value attached. -/
theorem flagParse_separator_attached (separator : String) (pretty : Bool)
    (actual : List String) (v : String) (rest : List String) :
    flagParse separator pretty actual (("--separator=" ++ v) :: rest) =
      flagParse v pretty ("separator" :: actual) rest := by
  rw [flagParse.eq_def]
  rfl

/-- The boolean flag `--pretty`. -/
theorem flagParse_pretty (separator : String) (pretty : Bool) (actual : List String)
    (rest : List String) :
    flagParse separator pretty actual ("--pretty" :: rest) =
      flagParse separator true ("pretty" :: actual) rest := by
  rw [flagParse.eq_def]
  rfl

/-- Parsing stops at the first argument that is not a flag. -/
theorem flagParse_positional (separator : String) (pretty : Bool) (actual : List String)
    (path : String) (rest : List String)
    (hpath : path.toList.length < 2 ∨ path.toList.head? ≠ some '-') :
    flagParse separator pretty actual (path :: rest) =
      ParseResult.ok ⟨separator, pretty, actual, path :: rest⟩ := by
  rw [flagParse.eq_def]
  simp only
  rw [if_pos hpath]

theorem extScan_spec : ∀ (l acc : List Char),
    extScan l acc = [] ∨
      ∃ mid rest, l = mid ++ '.' :: rest ∧ extScan l acc = '.' :: (mid.reverse ++ acc) ∧
        '.' ∉ mid ∧ '/' ∉ mid := by
  intro l
  induction l with
  | nil => intro acc; exact Or.inl rfl
  | cons c before ih =>
    intro acc
    by_cases hs : c = '/'
    · left; simp [extScan, hs]
    · by_cases hd : c = '.'
      · right
        refine ⟨[], before, by simp [hd], by simp [extScan, hd], by simp, by simp⟩
      · rcases ih (c :: acc) with h | ⟨mid, rest, h1, h2, h3, h4⟩
        · left; simp [extScan, hs, hd, h]
        · right
          refine ⟨c :: mid, rest, by simp [h1], by simp [extScan, hs, hd, h2], ?_, ?_⟩
          · simp only [List.mem_cons, not_or]
            exact ⟨fun e => hd e.symm, h3⟩
          · simp only [List.mem_cons, not_or]
            exact ⟨fun e => hs e.symm, h4⟩

/-- The extension computed by `Ext` is `.csv` exactly for the paths that end
in `.csv`. -/
theorem Ext_eq_csv_iff (path : String) :
    Ext path = ".csv" ↔ ".csv".toList <:+ path.toList := by
  constructor
  · intro h
    have h' : extScan path.toList.reverse [] = ['.', 'c', 's', 'v'] := by
      have := congrArg String.toList h
      simpa [Ext] using this
    rcases extScan_spec path.toList.reverse [] with h0 | ⟨mid, rest, h1, h2, -, -⟩
    · rw [h0] at h'; cases h'
    · rw [h2] at h'
      have hrev : path.toList = rest.reverse ++ '.' :: mid.reverse := by
        have := congrArg List.reverse h1
        simpa using this
      refine ⟨rest.reverse, ?_⟩
      rw [hrev]
      simp only [List.append_nil, List.cons.injEq, true_and] at h'
      rw [h']
      rfl
  · rintro ⟨t, ht⟩
    have hl : path.toList.reverse = 'v' :: 's' :: 'c' :: '.' :: t.reverse := by
      rw [← ht]
      simp
    unfold Ext
    rw [hl]
    simp [extScan]

/-! ## The claims on `getFileData` -/

/-- C6 (the code at the failing inputs): for the argument vectors
`["csv2json", "--pretty"]` and `["csv2json", "--separator", "semicolon"]`,
which hold no positional argument, `getFileData` returns a configuration with
the empty file path and the nil error; only a vector without any argument after
the program name gives the missing-argument error. -/
theorem getFileData_flags_only_returns_config :
    getFileData ["csv2json", "--pretty"] =
      GetFileDataResult.returned ⟨"", "comma", true⟩ none ∧
    getFileData ["csv2json", "--separator", "semicolon"] =
      GetFileDataResult.returned ⟨"", "semicolon", false⟩ none ∧
    getFileData ["csv2json"] =
      GetFileDataResult.returned ⟨"", "", false⟩ (some GoError.missingArgument) := by
  decide

/-- C7 (counterexample): the argument vector
`["csv2json", "--bogus", "x.csv"]` passes the argument-count check, and
`getFileData` neither returns the invalid-separator error nor a configuration:
the flag is not defined and the process is terminated inside `flag.Parse()`. -/
theorem getFileData_exits_on_undefined_flag :
    ¬ ["csv2json", "--bogus", "x.csv"].length < 2 ∧
    getFileData ["csv2json", "--bogus", "x.csv"] = GetFileDataResult.exited ∧
    ∀ fileData err,
      getFileData ["csv2json", "--bogus", "x.csv"] ≠ GetFileDataResult.returned fileData err := by
  have h : getFileData ["csv2json", "--bogus", "x.csv"] = GetFileDataResult.exited := by decide
  refine ⟨by decide, h, ?_⟩
  intro fileData err he
  rw [h] at he
  cases he

/-- C7 (amended): for an argument vector that passes the argument-count check
and whose flags `flag.Parse()` accepts, `getFileData` returns the
invalid-separator error if and only if the parsed separator is neither `comma`
nor `semicolon`; otherwise it returns, with the nil error, the configuration
that carries the parsed separator, the parsed `pretty` value and the first
positional argument; the separator is `comma` when the separator flag has not
been set, and `pretty` is false when its flag has not been set.  The parsed
separator is the value given to the separator flag: for the arguments
`--separator v path` and `--separator=v path` the result is the configuration
with separator `v` when `v` is `comma` or `semicolon` and the invalid-separator
error for every other `v`; for the arguments `path` and `--pretty path` the
separator is `comma`, and `pretty` is false and true. -/
theorem getFileData_separator_check (osArgs : List String) (st : FlagState)
    (hcount : ¬ osArgs.length < 2)
    (hparse : flagParse "comma" false [] (osArgs.drop 1) = ParseResult.ok st) :
    (getFileData osArgs =
        GetFileDataResult.returned ⟨"", "", false⟩ (some GoError.invalidSeparator) ↔
      ¬ (st.separator = "comma" ∨ st.separator = "semicolon")) ∧
    ((st.separator = "comma" ∨ st.separator = "semicolon") →
      getFileData osArgs =
        GetFileDataResult.returned ⟨st.args.getD 0 "", st.separator, st.pretty⟩ none) ∧
    ("separator" ∉ st.actual → st.separator = "comma") ∧
    ("pretty" ∉ st.actual → st.pretty = false) ∧
    (∀ prog v path : String, (path.toList.length < 2 ∨ path.toList.head? ≠ some '-') →
      getFileData [prog, "--separator", v, path] =
        if v = "comma" ∨ v = "semicolon" then
          GetFileDataResult.returned ⟨path, v, false⟩ none
        else
          GetFileDataResult.returned ⟨"", "", false⟩ (some GoError.invalidSeparator)) ∧
    (∀ prog v path : String, (path.toList.length < 2 ∨ path.toList.head? ≠ some '-') →
      getFileData [prog, "--separator=" ++ v, path] =
        if v = "comma" ∨ v = "semicolon" then
          GetFileDataResult.returned ⟨path, v, false⟩ none
        else
          GetFileDataResult.returned ⟨"", "", false⟩ (some GoError.invalidSeparator)) ∧
    (∀ prog path : String, (path.toList.length < 2 ∨ path.toList.head? ≠ some '-') →
      getFileData [prog, path] = GetFileDataResult.returned ⟨path, "comma", false⟩ none) ∧
    (∀ prog path : String, (path.toList.length < 2 ∨ path.toList.head? ≠ some '-') →
      getFileData [prog, "--pretty", path] =
        GetFileDataResult.returned ⟨path, "comma", true⟩ none) := by
  obtain ⟨-, hsep, hpretty⟩ :=
    flagParse_actual_aux _ (osArgs.drop 1) (Nat.le_refl _) "comma" false [] st hparse
  have hfinish : ∀ (prog a : String) (rest : List String) (st' : FlagState),
      flagParse "comma" false [] (a :: rest) = ParseResult.ok st' →
      getFileData (prog :: a :: rest) =
        if st'.separator = "comma" ∨ st'.separator = "semicolon" then
          GetFileDataResult.returned ⟨st'.args.getD 0 "", st'.separator, st'.pretty⟩ none
        else
          GetFileDataResult.returned ⟨"", "", false⟩ (some GoError.invalidSeparator) := by
    intro prog a rest st' hp
    have hc : ¬ (prog :: a :: rest).length < 2 := by simp
    unfold getFileData
    rw [if_neg hc]
    have hd : List.drop 1 (prog :: a :: rest) = a :: rest := rfl
    rw [hd]
    simp only [hp]
    by_cases hv : st'.separator = "comma" ∨ st'.separator = "semicolon"
    · simp [hv]
    · simp [hv]
  refine ⟨?_, ?_, hsep, hpretty, ?_, ?_, ?_, ?_⟩
  · by_cases hv : st.separator = "comma" ∨ st.separator = "semicolon"
    · unfold getFileData
      rw [if_neg hcount]
      simp only [hparse]
      simp [hv]
    · unfold getFileData
      rw [if_neg hcount]
      simp only [hparse]
      simp [hv]
  · intro hv
    unfold getFileData
    rw [if_neg hcount]
    simp only [hparse]
    simp [hv]
  · intro prog v path hpath
    have hp : flagParse "comma" false [] ["--separator", v, path] =
        ParseResult.ok ⟨v, false, ["separator"], [path]⟩ := by
      rw [flagParse_separator_next]
      exact flagParse_positional v false ["separator"] path [] hpath
    rw [hfinish prog _ _ _ hp]
    rfl
  · intro prog v path hpath
    have hp : flagParse "comma" false [] ["--separator=" ++ v, path] =
        ParseResult.ok ⟨v, false, ["separator"], [path]⟩ := by
      rw [flagParse_separator_attached]
      exact flagParse_positional v false ["separator"] path [] hpath
    rw [hfinish prog _ _ _ hp]
    rfl
  · intro prog path hpath
    have hp := flagParse_positional "comma" false [] path [] hpath
    rw [hfinish prog _ _ _ hp]
    rfl
  · intro prog path hpath
    have hp : flagParse "comma" false [] ["--pretty", path] =
        ParseResult.ok ⟨"comma", true, ["pretty"], [path]⟩ := by
      rw [flagParse_pretty]
      exact flagParse_positional "comma" true ["pretty"] path [] hpath
    rw [hfinish prog _ _ _ hp]
    rfl

/-- An instance of the amended C7 on the error path: the arguments
`--separator tab data.csv`; the parsed separator is `tab` and `getFileData`
returns the invalid-separator error. -/
theorem getFileData_separator_check_witness :
    ¬ ["csv2json", "--separator", "tab", "data.csv"].length < 2 ∧
    flagParse "comma" false [] (["csv2json", "--separator", "tab", "data.csv"].drop 1) =
      ParseResult.ok ⟨"tab", false, ["separator"], ["data.csv"]⟩ ∧
    ((getFileData ["csv2json", "--separator", "tab", "data.csv"] =
        GetFileDataResult.returned ⟨"", "", false⟩ (some GoError.invalidSeparator) ↔
      ¬ ((FlagState.mk "tab" false ["separator"] ["data.csv"]).separator = "comma" ∨
        (FlagState.mk "tab" false ["separator"] ["data.csv"]).separator = "semicolon")) ∧
    (((FlagState.mk "tab" false ["separator"] ["data.csv"]).separator = "comma" ∨
        (FlagState.mk "tab" false ["separator"] ["data.csv"]).separator = "semicolon") →
      getFileData ["csv2json", "--separator", "tab", "data.csv"] =
        GetFileDataResult.returned
          ⟨(FlagState.mk "tab" false ["separator"] ["data.csv"]).args.getD 0 "",
            (FlagState.mk "tab" false ["separator"] ["data.csv"]).separator,
            (FlagState.mk "tab" false ["separator"] ["data.csv"]).pretty⟩ none) ∧
    ("separator" ∉ (FlagState.mk "tab" false ["separator"] ["data.csv"]).actual →
      (FlagState.mk "tab" false ["separator"] ["data.csv"]).separator = "comma") ∧
    ("pretty" ∉ (FlagState.mk "tab" false ["separator"] ["data.csv"]).actual →
      (FlagState.mk "tab" false ["separator"] ["data.csv"]).pretty = false) ∧
    (∀ prog v path : String, (path.toList.length < 2 ∨ path.toList.head? ≠ some '-') →
      getFileData [prog, "--separator", v, path] =
        if v = "comma" ∨ v = "semicolon" then
          GetFileDataResult.returned ⟨path, v, false⟩ none
        else
          GetFileDataResult.returned ⟨"", "", false⟩ (some GoError.invalidSeparator)) ∧
    (∀ prog v path : String, (path.toList.length < 2 ∨ path.toList.head? ≠ some '-') →
      getFileData [prog, "--separator=" ++ v, path] =
        if v = "comma" ∨ v = "semicolon" then
          GetFileDataResult.returned ⟨path, v, false⟩ none
        else
          GetFileDataResult.returned ⟨"", "", false⟩ (some GoError.invalidSeparator)) ∧
    (∀ prog path : String, (path.toList.length < 2 ∨ path.toList.head? ≠ some '-') →
      getFileData [prog, path] = GetFileDataResult.returned ⟨path, "comma", false⟩ none) ∧
    (∀ prog path : String, (path.toList.length < 2 ∨ path.toList.head? ≠ some '-') →
      getFileData [prog, "--pretty", path] =
        GetFileDataResult.returned ⟨path, "comma", true⟩ none)) :=
  ⟨by decide, by decide,
    getFileData_separator_check ["csv2json", "--separator", "tab", "data.csv"]
      ⟨"tab", false, ["separator"], ["data.csv"]⟩ (by decide) (by decide)⟩

/-! ## The claims on `checkIfValidFile` -/

/-- C8: whatever `os.Stat` would answer, a path whose extension is not exactly
`.csv` (the comparison is case-sensitive) makes `checkIfValidFile` return
`false` and the is-not-CSV error, and a path whose extension is `.csv` never
gets that error; the extension is `.csv` exactly for the paths that end in
`.csv`, so `x.CSV`, `x.csv.txt` and `x` are rejected. -/
theorem checkIfValidFile_extension_first (osStat : String → Option StatError)
    (filename : String) :
    (Ext filename ≠ ".csv" →
      checkIfValidFile osStat filename = (false, some (GoError.notCSV filename))) ∧
    (Ext filename = ".csv" →
      ∀ f, (checkIfValidFile osStat filename).2 ≠ some (GoError.notCSV f)) ∧
    (Ext filename = ".csv" ↔ ".csv".toList <:+ filename.toList) ∧
    checkIfValidFile osStat "x.CSV" = (false, some (GoError.notCSV "x.CSV")) ∧
    checkIfValidFile osStat "x.csv.txt" = (false, some (GoError.notCSV "x.csv.txt")) ∧
    checkIfValidFile osStat "x" = (false, some (GoError.notCSV "x")) := by
  have hne : ∀ p, Ext p ≠ ".csv" →
      checkIfValidFile osStat p = (false, some (GoError.notCSV p)) := by
    intro p hp
    simp [checkIfValidFile, hp]
  refine ⟨hne filename, ?_, Ext_eq_csv_iff filename, hne _ (by decide), hne _ (by decide),
    hne _ (by decide)⟩
  intro hext f
  simp only [checkIfValidFile, hext, ne_eq, not_true_eq_false, if_false]
  cases osStat filename with
  | none => simp
  | some err => cases h : err.isNotExist <;> simp [h]

/-- C9 (counterexample): for the path `data.csv`, whose extension is `.csv`,
and an `os.Stat` that fails with an error other than does-not-exist
(permission denied), `checkIfValidFile` returns `(true, nil)`: the failure of
the stat is reported as a valid file and no file-access error is returned. -/
theorem checkIfValidFile_other_stat_error_is_valid :
    Ext "data.csv" = ".csv" ∧
    (fun _ => some ⟨false, "permission denied"⟩ : String → Option StatError) "data.csv" ≠ none ∧
    checkIfValidFile (fun _ => some ⟨false, "permission denied"⟩) "data.csv" = (true, none) := by
  decide

/-- C9 (amended): for a path with extension `.csv`, `checkIfValidFile` returns
`false` and the does-not-exist error exactly when `os.Stat` fails with an error
of which `os.IsNotExist` holds, and it returns `(true, nil)` in every other
case: when the stat succeeds and when it fails for another reason. -/
theorem checkIfValidFile_stat_classification (osStat : String → Option StatError)
    (filename : String) (hext : Ext filename = ".csv") :
    (checkIfValidFile osStat filename = (false, some (GoError.doesNotExist filename)) ↔
      ∃ err, osStat filename = some err ∧ err.isNotExist = true) ∧
    (¬ (∃ err, osStat filename = some err ∧ err.isNotExist = true) →
      checkIfValidFile osStat filename = (true, none)) ∧
    (osStat filename = none → checkIfValidFile osStat filename = (true, none)) := by
  simp only [checkIfValidFile, hext, ne_eq, not_true_eq_false, if_false]
  cases osStat filename with
  | none => simp
  | some err => cases h : err.isNotExist <;> simp [h]

/-- An instance of the amended C9: `data.csv` and a stat that reports that the
file does not exist. -/
theorem checkIfValidFile_stat_classification_witness :
    Ext "data.csv" = ".csv" ∧
    ((checkIfValidFile (fun _ => some ⟨true, "no such file or directory"⟩) "data.csv" =
        (false, some (GoError.doesNotExist "data.csv")) ↔
      ∃ err, (fun _ => some ⟨true, "no such file or directory"⟩ : String → Option StatError)
        "data.csv" = some err ∧ err.isNotExist = true) ∧
    (¬ (∃ err, (fun _ => some ⟨true, "no such file or directory"⟩ : String → Option StatError)
        "data.csv" = some err ∧ err.isNotExist = true) →
      checkIfValidFile (fun _ => some ⟨true, "no such file or directory"⟩) "data.csv" =
        (true, none)) ∧
    ((fun _ => some ⟨true, "no such file or directory"⟩ : String → Option StatError)
        "data.csv" = none →
      checkIfValidFile (fun _ => some ⟨true, "no such file or directory"⟩) "data.csv" =
        (true, none))) :=
  ⟨by decide,
    checkIfValidFile_stat_classification (fun _ => some ⟨true, "no such file or directory"⟩)
      "data.csv" (by decide)⟩

end CsvJson
